import Mathlib

/-
Verification of the chart-arcade turn-based trading engine and indicator
library (src/stores/gameStore.ts, src/utils/indicators.ts,
src/utils/gameLogic.ts) against its natural-language specification.

Modelling conventions:
- JS numbers are modelled as exact rationals; bar indices and counters as
  naturals; streak counters (which go negative) as integers; timestamps as
  integers. Each store action takes an explicit `now` parameter standing
  for the wall clock readings inside the action.
- One zustand store action runs to completion synchronously, so each action
  is a pure function from the game state (plus its arguments) to the next
  game state.
- Out-of-range JS array element access inside an action throws a TypeError
  before any state mutation has happened; such a call leaves the store
  unchanged, and is modelled by returning the input state (or none for the
  indicator functions, which throw before returning any output).
-/

namespace ChartArcade

/-- One OHLCV bar (src/types/index.ts OHLCVBar). The `open` field is
renamed `openP` because `open` is a Lean keyword. -/
structure Bar where
  time : String
  openP : ℚ
  high : ℚ
  low : ℚ
  close : ℚ
  volume : ℚ
  deriving DecidableEq, Repr

/-- StockData from src/types/index.ts. -/
structure StockData where
  ticker : String
  name : Option String
  sector : Option String
  bars : List Bar
  deriving DecidableEq, Repr

/-- StockMetadata from src/types/index.ts. -/
structure StockMetadata where
  ticker : String
  name : Option String
  sector : Option String
  startDate : String
  endDate : String
  barCount : ℕ
  deriving DecidableEq, Repr

/-- ActionType from src/types/index.ts. -/
inductive ActionType where
  | skip
  | buy
  | sell
  deriving DecidableEq, Repr

/-- Direction from src/types/index.ts. -/
inductive Direction where
  | up
  | down
  | flat
  deriving DecidableEq, Repr

/-- Position from src/types/index.ts. -/
structure Position where
  shares : ℚ
  averageCost : ℚ
  entryBarIndex : ℕ
  deriving DecidableEq, Repr

/-- Trade from src/types/index.ts; `type` is 'buy' or 'sell'. -/
structure Trade where
  type : ActionType
  barIndex : ℕ
  price : ℚ
  shares : ℚ
  timestamp : ℤ
  deriving DecidableEq, Repr

/-- HoldingPeriod from src/types/index.ts. -/
structure HoldingPeriod where
  entryBarIndex : ℕ
  exitBarIndex : Option ℕ
  entryPrice : ℚ
  exitPrice : Option ℚ
  deriving DecidableEq, Repr

/-- TurnOutcome from src/types/index.ts. -/
structure TurnOutcome where
  turnNumber : ℕ
  barIndex : ℕ
  action : ActionType
  positionBeforeAction : Option Position
  positionAfterAction : Option Position
  inferredPrediction : Direction
  actualDirection : Direction
  isWin : Option Bool
  priceAtAction : ℚ
  priceNextBar : ℚ
  deriving DecidableEq, Repr

/-- SessionStats from src/types/index.ts. -/
structure SessionStats where
  totalTurns : ℕ
  totalTrades : ℕ
  wins : ℕ
  losses : ℕ
  flats : ℕ
  currentStreak : ℤ
  bestStreak : ℤ
  worstStreak : ℤ
  chartsViewed : ℕ
  decisionTimes : List ℤ
  deriving DecidableEq, Repr

/-- GameState from src/types/index.ts (engine-relevant fields). -/
structure GameState where
  currentStock : Option StockData
  currentBarIndex : ℕ
  cash : ℚ
  position : Option Position
  trades : List Trade
  holdingPeriods : List HoldingPeriod
  turnOutcomes : List TurnOutcome
  turnNumber : ℕ
  turnStartTime : Option ℤ
  sessionStats : SessionStats
  isLoading : Bool
  lastAction : Option ActionType
  lastOutcome : Option TurnOutcome
  showRevealCard : Bool
  revealedStock : Option StockMetadata
  deriving DecidableEq, Repr

/-- INITIAL_CASH constant from src/stores/gameStore.ts. -/
def INITIAL_CASH : ℚ := 10000

/-- EPSILON constant (0.05 percent flat threshold) from src/stores/gameStore.ts. -/
def EPSILON : ℚ := 5 / 10000

/-- initialSessionStats from src/stores/gameStore.ts. -/
def initialSessionStats : SessionStats :=
  { totalTurns := 0, totalTrades := 0, wins := 0, losses := 0, flats := 0
    currentStreak := 0, bestStreak := 0, worstStreak := 0, chartsViewed := 0
    decisionTimes := [] }

/-- initialState from src/stores/gameStore.ts. -/
def initialState : GameState :=
  { currentStock := none, currentBarIndex := 0, cash := INITIAL_CASH
    position := none, trades := [], holdingPeriods := [], turnOutcomes := []
    turnNumber := 0, turnStartTime := none, sessionStats := initialSessionStats
    isLoading := false, lastAction := none, lastOutcome := none
    showRevealCard := false, revealedStock := none }

/-- getDirection from src/stores/gameStore.ts (also src/utils/gameLogic.ts). -/
def getDirection (currentClose nextClose : ℚ) : Direction :=
  let change := (nextClose - currentClose) / currentClose
  if change > EPSILON then .up
  else if change < -EPSILON then .down
  else .flat

/-- inferPrediction from src/stores/gameStore.ts: up when the position has
shares > 0, down otherwise. -/
def inferPrediction (position : Option Position) : Direction :=
  match position with
  | some p => if p.shares > 0 then .up else .down
  | none => .down

/-- loadStock from src/stores/gameStore.ts. Note that the source's set call
does not include the cash field, so cash is left at its previous value. -/
def loadStock (s : GameState) (stock : StockData) (startIndex : ℕ) (now : ℤ) :
    GameState :=
  { s with
    currentStock := some stock
    currentBarIndex := startIndex
    position := none
    trades := []
    holdingPeriods := []
    turnOutcomes := []
    turnNumber := 0
    turnStartTime := some now
    lastAction := none
    lastOutcome := none
    showRevealCard := false
    revealedStock := none
    sessionStats :=
      { s.sessionStats with chartsViewed := s.sessionStats.chartsViewed + 1 } }

/-- advanceBar from src/stores/gameStore.ts. -/
def advanceBar (s : GameState) : GameState :=
  { s with
    currentBarIndex := s.currentBarIndex + 1
    turnNumber := s.turnNumber + 1 }

/-- calculateOutcome from src/stores/gameStore.ts. Reads the current and
next bars; when the next bar does not exist (or no stock is loaded) it
returns null. The source reads bars at currentBarIndex and currentBarIndex+1
and only dereferences them after the next-bar null check, so the function
never throws. -/
def calculateOutcome (s : GameState) : Option TurnOutcome :=
  match s.currentStock with
  | none => none
  | some stock =>
    match stock.bars.get? (s.currentBarIndex + 1) with
    | none => none
    | some nextBar =>
      match stock.bars.get? s.currentBarIndex with
      | none => none
      | some currentBar =>
        let direction := getDirection currentBar.close nextBar.close
        let prediction := inferPrediction s.position
        let isWin : Option Bool :=
          if direction = .flat then none else some (prediction = direction)
        some
          { turnNumber := s.turnNumber
            barIndex := s.currentBarIndex
            action := s.lastAction.getD .skip
            positionBeforeAction := s.position
            positionAfterAction := s.position
            inferredPrediction := prediction
            actualDirection := direction
            isWin := isWin
            priceAtAction := currentBar.close
            priceNextBar := nextBar.close }

/-- recordTurnOutcome from src/stores/gameStore.ts. -/
def recordTurnOutcome (s : GameState) (outcome : TurnOutcome) : GameState :=
  let stats := s.sessionStats
  let stats :=
    match outcome.isWin with
    | some true =>
      let cs := if stats.currentStreak > 0 then stats.currentStreak + 1 else 1
      { stats with
        wins := stats.wins + 1
        currentStreak := cs
        bestStreak := max stats.bestStreak cs }
    | some false =>
      let cs := if stats.currentStreak < 0 then stats.currentStreak - 1 else -1
      { stats with
        losses := stats.losses + 1
        currentStreak := cs
        worstStreak := min stats.worstStreak cs }
    | none => { stats with flats := stats.flats + 1 }
  { s with
    turnOutcomes := s.turnOutcomes ++ [outcome]
    lastOutcome := some outcome
    sessionStats := stats }

/-- The decision-time computation shared by skip, buy and sell:
now minus turnStartTime when the latter is set, else 0. -/
def decisionTimeOf (s : GameState) (now : ℤ) : ℤ :=
  match s.turnStartTime with
  | some t => now - t
  | none => 0

/-- The shared "record outcome if present" step of skip, buy and sell:
when calculateOutcome produced an outcome it is recorded with its action
field overridden, otherwise nothing is recorded. -/
def recordIf (s2 : GameState) (oo : Option TurnOutcome) (a : ActionType) :
    GameState :=
  match oo with
  | some o => recordTurnOutcome s2 { o with action := a }
  | none => s2

/-- skip from src/stores/gameStore.ts. -/
def skip (s : GameState) (now : ℤ) : GameState :=
  match s.currentStock with
  | none => s
  | some _ =>
    let decisionTime := decisionTimeOf s now
    let s1 := { s with lastAction := some ActionType.skip }
    let outcome := calculateOutcome s1
    let s2 := advanceBar s1
    let s3 := recordIf s2 outcome .skip
    { s3 with
      sessionStats :=
        { s3.sessionStats with
          totalTurns := s3.sessionStats.totalTurns + 1
          decisionTimes := s3.sessionStats.decisionTimes ++ [decisionTime] }
      turnStartTime := some now }

/-- buy from src/stores/gameStore.ts. Guard order follows the source:
no stock / percentage out of (0,100], then cash <= 0. A buy at an
out-of-range bar index throws in the source before any mutation, modelled
here as returning the state unchanged. -/
def buy (s : GameState) (percentage : ℚ) (now : ℤ) : GameState :=
  match s.currentStock with
  | none => s
  | some stock =>
    if percentage ≤ 0 ∨ percentage > 100 then s
    else if s.cash ≤ 0 then s
    else
      match stock.bars.get? s.currentBarIndex with
      | none => s
      | some currentBar =>
        let price := currentBar.close
        let amountToSpend := s.cash * (percentage / 100)
        let sharesToBuy := amountToSpend / price
        let decisionTime := decisionTimeOf s now
        let trade : Trade :=
          { type := .buy, barIndex := s.currentBarIndex, price := price
            shares := sharesToBuy, timestamp := now }
        let existingShares := (s.position.map Position.shares).getD 0
        let existingCost := (s.position.map Position.averageCost).getD 0
        let newShares := existingShares + sharesToBuy
        let newAverageCost :=
          (existingShares * existingCost + sharesToBuy * price) / newShares
        let newPosition : Position :=
          { shares := newShares
            averageCost := newAverageCost
            entryBarIndex :=
              (s.position.map Position.entryBarIndex).getD s.currentBarIndex }
        let startsHolding : Bool :=
          match s.position with
          | none => true
          | some p => p.shares = 0
        let holdingPeriods :=
          if startsHolding then
            s.holdingPeriods ++
              [{ entryBarIndex := s.currentBarIndex, exitBarIndex := none
                 entryPrice := price, exitPrice := none }]
          else s.holdingPeriods
        let s1 :=
          { s with
            cash := s.cash - amountToSpend
            position := some newPosition
            trades := s.trades ++ [trade]
            holdingPeriods := holdingPeriods
            lastAction := some ActionType.buy }
        let outcome := calculateOutcome s1
        let s2 := advanceBar s1
        let s3 := recordIf s2 outcome .buy
        { s3 with
          sessionStats :=
            { s3.sessionStats with
              totalTurns := s3.sessionStats.totalTurns + 1
              totalTrades := s3.sessionStats.totalTrades + 1
              decisionTimes := s3.sessionStats.decisionTimes ++ [decisionTime] }
          turnStartTime := some now }

/-- Closing of the most recent open holding period, as written in sell and
switchStock in src/stores/gameStore.ts: a map over the list that rewrites
the entry whose index is length-1 when its exit is still null. -/
def closeLastHp (hps : List HoldingPeriod) (exitIdx : ℕ) (price : ℚ) :
    List HoldingPeriod :=
  hps.enum.map fun p =>
    if p.1 = hps.length - 1 ∧ p.2.exitBarIndex = none then
      { p.2 with exitBarIndex := some exitIdx, exitPrice := some price }
    else p.2

/-- sell from src/stores/gameStore.ts. -/
def sell (s : GameState) (percentage : ℚ) (now : ℤ) : GameState :=
  match s.currentStock with
  | none => s
  | some stock =>
    if percentage ≤ 0 ∨ percentage > 100 then s
    else
      match s.position with
      | none => s
      | some pos =>
        if pos.shares ≤ 0 then s
        else
          match stock.bars.get? s.currentBarIndex with
          | none => s
          | some currentBar =>
            let price := currentBar.close
            let sharesToSell := pos.shares * (percentage / 100)
            let proceeds := sharesToSell * price
            let decisionTime := decisionTimeOf s now
            let trade : Trade :=
              { type := .sell, barIndex := s.currentBarIndex, price := price
                shares := sharesToSell, timestamp := now }
            let remainingShares := pos.shares - sharesToSell
            let newPosition : Option Position :=
              if remainingShares > 1 / 10000 then
                some { pos with shares := remainingShares }
              else none
            let holdingPeriods :=
              if newPosition = none then
                closeLastHp s.holdingPeriods s.currentBarIndex price
              else s.holdingPeriods
            let s1 :=
              { s with
                cash := s.cash + proceeds
                position := newPosition
                trades := s.trades ++ [trade]
                holdingPeriods := holdingPeriods
                lastAction := some ActionType.sell }
            let outcome := calculateOutcome s1
            let s2 := advanceBar s1
            let s3 := recordIf s2 outcome .sell
            { s3 with
              sessionStats :=
                { s3.sessionStats with
                  totalTurns := s3.sessionStats.totalTurns + 1
                  totalTrades := s3.sessionStats.totalTrades + 1
                  decisionTimes :=
                    s3.sessionStats.decisionTimes ++ [decisionTime] }
              turnStartTime := some now }

/-- The reveal metadata built by switchStock from the outgoing stock.
The source reads bars[0] and bars[length-1]; an empty bar list would throw
there, which the callers of this definition guard with get?. -/
def revealMetadata (stock : StockData) (firstBar lastBar : Bar) :
    StockMetadata :=
  { ticker := stock.ticker
    name := stock.name
    sector := stock.sector
    startDate := firstBar.time
    endDate := lastBar.time
    barCount := stock.bars.length }

/-- switchStock from src/stores/gameStore.ts (the part before the TODO that
would load the next stock): force-liquidates an open position at the
current close and surfaces the outgoing stock's metadata. Out-of-range bar
access throws in the source before any mutation, modelled as returning the
state unchanged. -/
def switchStock (s : GameState) (now : ℤ) : GameState :=
  match s.currentStock with
  | none => s
  | some stock =>
    match s.position with
    | some pos =>
      if pos.shares > 0 then
        match stock.bars.get? s.currentBarIndex,
            stock.bars.get? 0, stock.bars.get? (stock.bars.length - 1) with
        | some currentBar, some firstBar, some lastBar =>
          let sellPrice := currentBar.close
          let trade : Trade :=
            { type := .sell, barIndex := s.currentBarIndex, price := sellPrice
              shares := pos.shares, timestamp := now }
          { s with
            cash := s.cash + pos.shares * sellPrice
            position := none
            trades := s.trades ++ [trade]
            holdingPeriods := closeLastHp s.holdingPeriods s.currentBarIndex sellPrice
            showRevealCard := true
            revealedStock := some (revealMetadata stock firstBar lastBar)
            sessionStats :=
              { s.sessionStats with
                totalTrades := s.sessionStats.totalTrades + 1 } }
        | _, _, _ => s
      else
        match stock.bars.get? 0, stock.bars.get? (stock.bars.length - 1) with
        | some firstBar, some lastBar =>
          { s with
            showRevealCard := true
            revealedStock := some (revealMetadata stock firstBar lastBar) }
        | _, _ => s
    | none =>
      match stock.bars.get? 0, stock.bars.get? (stock.bars.length - 1) with
      | some firstBar, some lastBar =>
        { s with
          showRevealCard := true
          revealedStock := some (revealMetadata stock firstBar lastBar) }
      | _, _ => s

/-- LineData from src/types/index.ts. -/
structure LineData where
  time : String
  value : ℚ
  deriving DecidableEq, Repr

/-- The time of bar i; only evaluated at in-range indices by the indicator
definitions below. -/
def timeAt (bars : List Bar) (i : ℕ) : String :=
  ((bars.get? i).map Bar.time).getD ""

/-- The close of bar i; only evaluated at in-range indices by the indicator
definitions below. -/
def closeAt (bars : List Bar) (i : ℕ) : ℚ :=
  ((bars.get? i).map Bar.close).getD 0

/-- calculateSMA from src/utils/indicators.ts: the source loop runs i from
period-1 to bars.length-1, summing the closes of bars[i-j] for j < period. -/
def calculateSMA (bars : List Bar) (period : ℕ) : List LineData :=
  (List.range' (period - 1) (bars.length - (period - 1))).map fun i =>
    { time := timeAt bars i
      value := (((List.range period).map fun j => closeAt bars (i - j)).sum) / period }

/-- The tail loop of calculateEMA: one output point per remaining bar,
ema = (close - ema) * k + ema. -/
def emaLoop (k : ℚ) : ℚ → List Bar → List LineData
  | _, [] => []
  | ema, b :: rest =>
    let ema2 := (b.close - ema) * k + ema
    { time := b.time, value := ema2 } :: emaLoop k ema2 rest

/-- calculateEMA from src/utils/indicators.ts. The source unconditionally
seeds with the SMA of the first `period` closes and emits it at
bars[period-1].time; when bars.length < period that seed loop dereferences
an out-of-range element and throws, modelled here as none. -/
def calculateEMA (bars : List Bar) (period : ℕ) : Option (List LineData) :=
  if bars.length < period then none
  else
    let seed := (((bars.take period).map Bar.close).sum) / period
    let k : ℚ := 2 / ((period : ℚ) + 1)
    some ({ time := timeAt bars (period - 1), value := seed } ::
      emaLoop k seed (bars.drop period))

/-- The per-bar gain/loss pairs of calculateRSI: for each i from 1, the
change bars[i].close - bars[i-1].close split into (gain, loss). -/
def changes : List Bar → List (ℚ × ℚ)
  | [] => []
  | [_] => []
  | a :: b :: rest =>
    let c := b.close - a.close
    (if c > 0 then c else 0, if c < 0 then -c else 0) :: changes (b :: rest)

/-- The RSI value emitted by calculateRSI for given running averages: the
source computes rs = 100 when avgLoss is 0 (else avgGain/avgLoss) and
emits 100 - 100/(1+rs). -/
def rsiValue (avgGain avgLoss : ℚ) : ℚ :=
  let rs := if avgLoss = 0 then 100 else avgGain / avgLoss
  100 - 100 / (1 + rs)

/-- The Wilder-smoothing loop of calculateRSI: one output point per
remaining (gain, loss) pair, dated at the corresponding bar (the source's
bars[i+1]). -/
def rsiLoop (period : ℕ) : ℚ → ℚ → List (ℚ × ℚ) → List Bar → List LineData
  | _, _, [], _ => []
  | _, _, _ :: _, [] => []
  | avgGain, avgLoss, (g, l) :: gls, b :: bs =>
    let ag := (avgGain * ((period : ℚ) - 1) + g) / period
    let al := (avgLoss * ((period : ℚ) - 1) + l) / period
    { time := b.time, value := rsiValue ag al } :: rsiLoop period ag al gls bs

/-- calculateRSI from src/utils/indicators.ts. The source seeds the
averages from the first `period` gains/losses and emits the first value at
bars[period].time; when bars.length < period+1 that access is out of range
and throws, modelled here as none. -/
def calculateRSI (bars : List Bar) (period : ℕ) : Option (List LineData) :=
  if bars.length < period + 1 then none
  else
    let gl := changes bars
    let avgGain := (((gl.take period).map Prod.fst).sum) / period
    let avgLoss := (((gl.take period).map Prod.snd).sum) / period
    some ({ time := timeAt bars period, value := rsiValue avgGain avgLoss } ::
      rsiLoop period avgGain avgLoss (gl.drop period) (bars.drop (period + 1)))

/-- The three series returned by calculateBollingerBands. -/
structure BollingerSeries where
  upper : List LineData
  middle : List LineData
  lower : List LineData
  deriving DecidableEq, Repr

/-- calculateBollingerBands from src/utils/indicators.ts. Math.sqrt has no
exact rational counterpart, so the square-root routine is passed in as a
parameter `sqrtFn`; every claim proved below holds for an arbitrary
square-root function. The windowing is the source's: one point per i from
period-1 to bars.length-1. -/
def calculateBollingerBands ( sqrtFn : ℚ → ℚ) (bars : List Bar)
    (period : ℕ) (stdDevMultiplier : ℚ) : BollingerSeries :=
  let idxs := List.range' (period - 1) (bars.length - (period - 1))
  let smaOf : ℕ → ℚ := fun i =>
    (((List.range period).map fun j => closeAt bars (i - j)).sum) / period
  let stdDevOf : ℕ → ℚ := fun i =>
    sqrtFn ((((List.range period).map fun j =>
      (closeAt bars (i - j) - smaOf i) ^ 2).sum) / period)
  { middle := idxs.map fun i => { time := timeAt bars i, value := smaOf i }
    upper := idxs.map fun i =>
      { time := timeAt bars i, value := smaOf i + stdDevOf i * stdDevMultiplier }
    lower := idxs.map fun i =>
      { time := timeAt bars i, value := smaOf i - stdDevOf i * stdDevMultiplier } }

/-- The typical price (high+low+close)/3 used by calculateVWAP. -/
def typicalPrice (b : Bar) : ℚ :=
  (b.high + b.low + b.close) / 3

/-- The accumulator loop of calculateVWAP: carries cumulative
typical-price-times-volume and cumulative volume. -/
def vwapLoop : ℚ → ℚ → List Bar → List LineData
  | _, _, [] => []
  | cumulativeTPV, cumulativeVolume, b :: rest =>
    let tp := typicalPrice b
    let tpv := cumulativeTPV + tp * b.volume
    let v := cumulativeVolume + b.volume
    { time := b.time, value := if v > 0 then tpv / v else tp } ::
      vwapLoop tpv v rest

/-- calculateVWAP from src/utils/indicators.ts. -/
def calculateVWAP (bars : List Bar) : List LineData :=
  vwapLoop 0 0 bars


/-! Concrete inputs, the spec-side VWAP description, and the reachability
model used by the theorems below. -/

/-- A bar with all four prices equal to c. -/
def mkBar (t : String) (c : ℚ) (v : ℚ) : Bar :=
  { time := t, openP := c, high := c, low := c, close := c, volume := v }

/-- A four-bar instrument: closes 100, 102, 105, 103. -/
def stockW : StockData :=
  { ticker := "X", name := none, sector := none
    bars := [mkBar "a" 100 1, mkBar "b" 102 1, mkBar "c" 105 1, mkBar "d" 103 1] }

/-- The outcome recorded by the witness buy below, written out in full. -/
def buyOutcomeW : TurnOutcome :=
  { turnNumber := 0, barIndex := 0, action := .buy
    positionBeforeAction :=
      some { shares := 50, averageCost := 100, entryBarIndex := 0 }
    positionAfterAction :=
      some { shares := 50, averageCost := 100, entryBarIndex := 0 }
    inferredPrediction := .up, actualDirection := .up, isWin := some true
    priceAtAction := 100, priceNextBar := 102 }

/-- A minimal outcome record with the given verdict, for the streak
witnesses. -/
def outcomeWith (w : Option Bool) : TurnOutcome :=
  { turnNumber := 0, barIndex := 0, action := .skip
    positionBeforeAction := none, positionAfterAction := none
    inferredPrediction := .down, actualDirection := .flat, isWin := w
    priceAtAction := 1, priceNextBar := 1 }

/-- The claim's description of VWAP, written from its words: for each bar
index, if the cumulative volume up to and including that bar is zero the
value is that bar's typical price, otherwise it is the cumulative
typical-price-times-volume divided by the cumulative volume. -/
def vwapFromSpec (bars : List Bar) : List LineData :=
  (List.range bars.length).map fun i =>
    let pre := bars.take (i + 1)
    let cv := (pre.map Bar.volume).sum
    let ct := (pre.map fun b => typicalPrice b * b.volume).sum
    { time := timeAt bars i
      value := if cv = 0 then ((bars.get? i).map typicalPrice).getD 0
        else ct / cv }

/-- The two-bar list exercising a zero-volume prefix for the VWAP
witness. -/
def vBars : List Bar := [mkBar "v1" 1 0, mkBar "v2" 2 2]

/-- Three rising bars for the RSI alignment counterexample. -/
def rsiBars6 : List Bar := [mkBar "z1" 1 1, mkBar "z2" 2 1, mkBar "z3" 3 1]

/-- Two rising closes for the zero-average-loss RSI value. -/
def rsiBars7 : List Bar := [mkBar "r1" 1 1, mkBar "r2" 2 1, mkBar "r3" 3 1]

/-- The inductive invariant for the holding-period pairing claim: every
holding period except possibly the last is closed; the last one is open
exactly when a position is held; positions hold positive share counts; and
the loaded instrument's closes are positive (the data model guarantees
positive prices, and it is what makes a buy produce a positive share
count). -/
def Inv (s : GameState) : Prop :=
  (∀ hp ∈ s.holdingPeriods.dropLast, hp.exitBarIndex ≠ none) ∧
  ((s.position ≠ none) ↔
    (∃ hp, s.holdingPeriods.getLast? = some hp ∧ hp.exitBarIndex = none)) ∧
  (∀ q, s.position = some q → 0 < q.shares) ∧
  (∀ st, s.currentStock = some st → ∀ b ∈ st.bars, 0 < b.close)

/-- The states reachable from the initial store state by any sequence of
LoadInstrument, Skip, Buy, Sell and SwitchInstrument operations. Loaded
snapshots are the validated ones of the data model: all closes positive. -/
inductive Reachable : GameState → Prop where
  | initStep : Reachable initialState
  | loadStep (s : GameState) (stock : StockData) (i : ℕ) (now : ℤ) :
      Reachable s → (∀ b ∈ stock.bars, 0 < b.close) →
      Reachable (loadStock s stock i now)
  | skipStep (s : GameState) (now : ℤ) : Reachable s →
      Reachable (skip s now)
  | buyStep (s : GameState) (p : ℚ) (now : ℤ) : Reachable s →
      Reachable (buy s p now)
  | sellStep (s : GameState) (p : ℚ) (now : ℤ) : Reachable s →
      Reachable (sell s p now)
  | switchStep (s : GameState) (now : ℤ) : Reachable s →
      Reachable (switchStock s now)

/-! Projection lemmas for the pipeline steps shared by skip, buy and sell:
recording an outcome touches only the outcome history, last outcome and
session stats; advancing the bar touches only the bar index and turn
number. -/

theorem recordTurnOutcome_proj (s : GameState) (o : TurnOutcome) :
    (recordTurnOutcome s o).cash = s.cash ∧
    (recordTurnOutcome s o).position = s.position ∧
    (recordTurnOutcome s o).holdingPeriods = s.holdingPeriods ∧
    (recordTurnOutcome s o).trades = s.trades ∧
    (recordTurnOutcome s o).currentStock = s.currentStock ∧
    (recordTurnOutcome s o).currentBarIndex = s.currentBarIndex :=
  ⟨rfl, rfl, rfl, rfl, rfl, rfl⟩

theorem recordIf_cash (s : GameState) (oo : Option TurnOutcome)
    (a : ActionType) : (recordIf s oo a).cash = s.cash := by
  cases oo <;> rfl

theorem recordIf_position (s : GameState) (oo : Option TurnOutcome)
    (a : ActionType) : (recordIf s oo a).position = s.position := by
  cases oo <;> rfl

theorem recordIf_holdingPeriods (s : GameState) (oo : Option TurnOutcome)
    (a : ActionType) : (recordIf s oo a).holdingPeriods = s.holdingPeriods := by
  cases oo <;> rfl

theorem recordIf_trades (s : GameState) (oo : Option TurnOutcome)
    (a : ActionType) : (recordIf s oo a).trades = s.trades := by
  cases oo <;> rfl

theorem recordIf_currentStock (s : GameState) (oo : Option TurnOutcome)
    (a : ActionType) : (recordIf s oo a).currentStock = s.currentStock := by
  cases oo <;> rfl

theorem recordIf_currentBarIndex (s : GameState) (oo : Option TurnOutcome)
    (a : ActionType) : (recordIf s oo a).currentBarIndex = s.currentBarIndex := by
  cases oo <;> rfl

theorem recordIf_turnOutcomes (s : GameState) (oo : Option TurnOutcome)
    (a : ActionType) :
    (recordIf s oo a).turnOutcomes =
      (match oo with
       | some o => s.turnOutcomes ++ [{ o with action := a }]
       | none => s.turnOutcomes) := by
  cases oo <;> rfl

/-! Characterizations of the three actions on their main paths, used by
several claims below. -/

/-- skip leaves cash, position, trades and holding periods untouched, and
advances the bar index by one when an instrument is loaded. -/
theorem skip_fields (s : GameState) (now : ℤ) :
    (skip s now).cash = s.cash ∧
    (skip s now).position = s.position ∧
    (skip s now).holdingPeriods = s.holdingPeriods ∧
    (skip s now).trades = s.trades ∧
    (skip s now).currentStock = s.currentStock ∧
    (s.currentStock ≠ none →
      (skip s now).currentBarIndex = s.currentBarIndex + 1) := by
  unfold skip
  rcases hc : s.currentStock with _ | stock
  · exact ⟨rfl, rfl, rfl, rfl, hc, fun h => absurd rfl h⟩
  · dsimp only
    rw [recordIf_cash, recordIf_position, recordIf_holdingPeriods,
      recordIf_trades, recordIf_currentStock, recordIf_currentBarIndex]
    exact ⟨rfl, rfl, rfl, rfl, rfl, fun _ => rfl⟩

/-- The successful path of buy: effect on cash, position, trades, holding
periods and bar index, for any state that passes all three guards and
whose current bar exists. -/
theorem buy_success (s : GameState) (stock : StockData) (cb : Bar) (p : ℚ)
    (now : ℤ)
    (hs : s.currentStock = some stock)
    (hp : ¬(p ≤ 0 ∨ p > 100)) (hc : ¬s.cash ≤ 0)
    (hbar : stock.bars.get? s.currentBarIndex = some cb) :
    (buy s p now).cash = s.cash - s.cash * (p / 100) ∧
    (buy s p now).position = some
      { shares := (s.position.map Position.shares).getD 0 +
          s.cash * (p / 100) / cb.close
        averageCost := ((s.position.map Position.shares).getD 0 *
            (s.position.map Position.averageCost).getD 0 +
            s.cash * (p / 100) / cb.close * cb.close) /
          ((s.position.map Position.shares).getD 0 +
            s.cash * (p / 100) / cb.close)
        entryBarIndex :=
          (s.position.map Position.entryBarIndex).getD s.currentBarIndex } ∧
    (buy s p now).holdingPeriods =
      (if (match s.position with
           | none => true
           | some q => decide (q.shares = 0)) = true then
        s.holdingPeriods ++
          [{ entryBarIndex := s.currentBarIndex, exitBarIndex := none
             entryPrice := cb.close, exitPrice := none }]
      else s.holdingPeriods) ∧
    (buy s p now).trades = s.trades ++
      [{ type := .buy, barIndex := s.currentBarIndex, price := cb.close
         shares := s.cash * (p / 100) / cb.close, timestamp := now }] ∧
    (buy s p now).currentBarIndex = s.currentBarIndex + 1 ∧
    (buy s p now).currentStock = some stock := by
  unfold buy
  rw [hs]
  dsimp only
  rw [if_neg hp, if_neg hc, hbar]
  dsimp only
  rcases calculateOutcome _ with _ | o <;>
    exact ⟨rfl, rfl, rfl, rfl, rfl, rfl⟩

/-- The successful path of sell: effect on cash, position, trades, holding
periods and bar index, for any state that passes all guards and whose
current bar exists. -/
theorem sell_success (s : GameState) (stock : StockData) (cb : Bar)
    (pos : Position) (p : ℚ) (now : ℤ)
    (hs : s.currentStock = some stock)
    (hp : ¬(p ≤ 0 ∨ p > 100))
    (hpos : s.position = some pos) (hsh : ¬pos.shares ≤ 0)
    (hbar : stock.bars.get? s.currentBarIndex = some cb) :
    (sell s p now).cash = s.cash + pos.shares * (p / 100) * cb.close ∧
    (sell s p now).position =
      (if pos.shares - pos.shares * (p / 100) > 1 / 10000 then
        some { pos with shares := pos.shares - pos.shares * (p / 100) }
      else none) ∧
    (sell s p now).holdingPeriods =
      (if (if pos.shares - pos.shares * (p / 100) > 1 / 10000 then
            some { pos with shares := pos.shares - pos.shares * (p / 100) }
          else none) = none then
        closeLastHp s.holdingPeriods s.currentBarIndex cb.close
      else s.holdingPeriods) ∧
    (sell s p now).trades = s.trades ++
      [{ type := .sell, barIndex := s.currentBarIndex, price := cb.close
         shares := pos.shares * (p / 100), timestamp := now }] ∧
    (sell s p now).currentBarIndex = s.currentBarIndex + 1 ∧
    (sell s p now).currentStock = some stock := by
  unfold sell
  rw [hs]
  dsimp only
  rw [if_neg hp, hpos]
  dsimp only
  rw [if_neg hsh, hbar]
  dsimp only
  rcases calculateOutcome _ with _ | o <;>
    exact ⟨rfl, rfl, rfl, rfl, rfl, rfl⟩



/-! ### C2, C4, C8 -/

/-- C2: LoadInstrument resets position, trades, holding periods, outcomes,
turn number, bar index and turn start time, but the source's set call omits
the cash field, so cash is NOT reset to the initial 10000: it keeps its
previous value (here also shown on a state whose cash is 10250). -/
theorem loadStock_keeps_cash (s : GameState) (stock : StockData) (i : ℕ)
    (now : ℤ) :
    (loadStock s stock i now).cash = s.cash ∧
    (loadStock { initialState with cash := 10250 } stock i now).cash = 10250 ∧
    (loadStock s stock i now).currentStock = some stock ∧
    (loadStock s stock i now).currentBarIndex = i ∧
    (loadStock s stock i now).position = none ∧
    (loadStock s stock i now).trades = [] ∧
    (loadStock s stock i now).holdingPeriods = [] ∧
    (loadStock s stock i now).turnOutcomes = [] ∧
    (loadStock s stock i now).turnNumber = 0 ∧
    (loadStock s stock i now).turnStartTime = some now :=
  ⟨rfl, rfl, rfl, rfl, rfl, rfl, rfl, rfl, rfl, rfl⟩

/-- C4: every failed argument guard returns with the state unchanged:
skip, buy and sell with no instrument loaded; buy and sell with a
percentage outside (0,100]; buy with cash ≤ 0; sell with no position or
non-positive shares. -/
theorem guard_rejection_noop (s : GameState) (p : ℚ) (now : ℤ) :
    (s.currentStock = none →
      skip s now = s ∧ buy s p now = s ∧ sell s p now = s) ∧
    (p ≤ 0 ∨ p > 100 → buy s p now = s ∧ sell s p now = s) ∧
    (s.cash ≤ 0 → buy s p now = s) ∧
    ((∀ q, s.position = some q → q.shares ≤ 0) → sell s p now = s) := by
  refine ⟨fun hn => ⟨?_, ?_, ?_⟩, fun hp => ⟨?_, ?_⟩, fun hc => ?_, fun hq => ?_⟩
  · unfold skip; rw [hn]
  · unfold buy; rw [hn]
  · unfold sell; rw [hn]
  · unfold buy
    rcases hs : s.currentStock with _ | stock
    · rfl
    · simp only [if_pos hp]
  · unfold sell
    rcases hs : s.currentStock with _ | stock
    · rfl
    · simp only [if_pos hp]
  · unfold buy
    rcases hs : s.currentStock with _ | stock
    · rfl
    · by_cases hp : p ≤ 0 ∨ p > 100
      · simp only [if_pos hp]
      · simp only [if_neg hp, if_pos hc]
  · unfold sell
    rcases hs : s.currentStock with _ | stock
    · rfl
    · by_cases hp : p ≤ 0 ∨ p > 100
      · simp only [if_pos hp]
      · simp only [if_neg hp]
        rcases hpos : s.position with _ | q
        · rfl
        · simp only [if_pos (hq q hpos)]

/-- Witness for C4: the initial state has no instrument loaded and no
position, and all three actions leave it unchanged; buy is also rejected
for percentage 200 and sell for the absent position. -/
theorem guard_rejection_noop_witness :
    skip initialState 0 = initialState ∧
    buy initialState 200 0 = initialState ∧
    sell initialState 50 0 = initialState :=
  ⟨(guard_rejection_noop initialState 200 0).1 rfl |>.1,
   (guard_rejection_noop initialState 200 0).1 rfl |>.2.1,
   (guard_rejection_noop initialState 50 0).1 rfl |>.2.2⟩

/-- C8: calculateOutcome is total at end of data: whenever the loaded
instrument has no bar at index currentBarIndex+1 (which also covers
currentBarIndex itself being out of range), and also when no instrument is
loaded, it returns null. It mutates nothing, being a pure read of the
state. -/
theorem calculateOutcome_end_of_data (s : GameState)
    (h : ∀ stock, s.currentStock = some stock →
      stock.bars.length ≤ s.currentBarIndex + 1) :
    calculateOutcome s = none := by
  unfold calculateOutcome
  rcases hc : s.currentStock with _ | stock
  · rfl
  · have hlen := h stock hc
    have hnone : stock.bars.get? (s.currentBarIndex + 1) = none :=
      List.get?_eq_none.mpr hlen
    dsimp only
    rw [hnone]

/-- Witness for C8: with the four-bar instrument loaded at bar index 3
(its last bar), calculateOutcome returns null. -/
theorem calculateOutcome_end_of_data_witness :
    calculateOutcome (loadStock initialState stockW 3 0) = none :=
  calculateOutcome_end_of_data _ (by
    intro stock h
    have hs : stockW = stock := by
      have : some stockW = some stock := h
      exact Option.some.inj this
    subst hs
    decide)

/-! ### C3 -/

/-- C3: the full round trip. From a freshly loaded state (cash 10000, no
position, no holding periods) whose close at the buy bar is 100 and whose
close two bars later is 105: Buy(50) leaves cash 5000 and exactly 50
shares at average cost 100; after one Skip, Sell(100) at close 105 yields
final cash exactly 10250, a null position, and exactly one closed holding
period with entry price 100 and exit price 105. -/
theorem full_round_trip
    (s : GameState) (stock : StockData) (i : ℕ) (b0 b2 : Bar) (t1 t2 t3 : ℤ)
    (hs : s.currentStock = some stock)
    (hcash : s.cash = 10000)
    (hpos : s.position = none)
    (hhp : s.holdingPeriods = [])
    (hidx : s.currentBarIndex = i)
    (hb0 : stock.bars.get? i = some b0) (hc0 : b0.close = 100)
    (hb2 : stock.bars.get? (i + 2) = some b2) (hc2 : b2.close = 105) :
    (buy s 50 t1).cash = 5000 ∧
    (buy s 50 t1).position =
      some { shares := 50, averageCost := 100, entryBarIndex := i } ∧
    (sell (skip (buy s 50 t1) t2) 100 t3).cash = 10250 ∧
    (sell (skip (buy s 50 t1) t2) 100 t3).position = none ∧
    (sell (skip (buy s 50 t1) t2) 100 t3).holdingPeriods =
      [{ entryBarIndex := i, exitBarIndex := some (i + 2), entryPrice := 100
         exitPrice := some 105 }] := by
  have hp50 : ¬((50 : ℚ) ≤ 0 ∨ (50 : ℚ) > 100) := by norm_num
  have hcashpos : ¬s.cash ≤ 0 := by rw [hcash]; norm_num
  have hbar0 : stock.bars.get? s.currentBarIndex = some b0 := by
    rw [hidx]; exact hb0
  obtain ⟨hbcash, hbpos, hbhp, hbtr, hbidx, hbstock⟩ :=
    buy_success s stock b0 50 t1 hs hp50 hcashpos hbar0
  have hbcash5 : (buy s 50 t1).cash = 5000 := by
    rw [hbcash, hcash]; norm_num
  have hbpos5 : (buy s 50 t1).position =
      some { shares := 50, averageCost := 100, entryBarIndex := i } := by
    rw [hbpos, hpos, hcash, hidx, hc0]
    simp only [Option.map_none', Option.getD_none, Option.some.injEq,
      Position.mk.injEq]
    norm_num
  have hbhp1 : (buy s 50 t1).holdingPeriods =
      [{ entryBarIndex := i, exitBarIndex := none, entryPrice := 100
         exitPrice := none }] := by
    rw [hbhp, hpos, hhp, hidx, hc0]
    simp
  obtain ⟨hscash, hspos, hshp, hstr, hsstock, hsidx⟩ :=
    skip_fields (buy s 50 t1) t2
  have hsstock2 : (skip (buy s 50 t1) t2).currentStock = some stock := by
    rw [hsstock, hbstock]
  have hsidx2 : (skip (buy s 50 t1) t2).currentBarIndex = i + 2 := by
    rw [hsidx (by rw [hbstock]; exact fun h => Option.noConfusion h), hbidx,
      hidx]
  have hpos2 : (skip (buy s 50 t1) t2).position =
      some { shares := 50, averageCost := 100, entryBarIndex := i } := by
    rw [hspos, hbpos5]
  have hsh : ¬({ shares := 50, averageCost := 100, entryBarIndex := i } :
      Position).shares ≤ 0 := by
    show ¬(50 : ℚ) ≤ 0
    norm_num
  have hbar2 : stock.bars.get? (skip (buy s 50 t1) t2).currentBarIndex =
      some b2 := by
    rw [hsidx2]; exact hb2
  obtain ⟨hlcash, hlpos, hlhp, hltr, hlidx, hlstock⟩ :=
    sell_success (skip (buy s 50 t1) t2) stock b2
      { shares := 50, averageCost := 100, entryBarIndex := i } 100 t3
      hsstock2 (by norm_num) hpos2 hsh hbar2
  have hrem : ¬(({ shares := 50, averageCost := 100, entryBarIndex := i } :
      Position).shares -
      ({ shares := 50, averageCost := 100, entryBarIndex := i } :
        Position).shares * ((100 : ℚ) / 100) > 1 / 10000) := by
    show ¬((50 : ℚ) - 50 * ((100 : ℚ) / 100) > 1 / 10000)
    norm_num
  refine ⟨hbcash5, hbpos5, ?_, ?_, ?_⟩
  · rw [hlcash, hscash, hbcash5, hc2]
    show (5000 : ℚ) + 50 * (100 / 100) * 105 = 10250
    norm_num
  · rw [hlpos, if_neg hrem]
  · rw [hlhp, if_neg hrem]
    rw [if_pos rfl, hshp, hbhp1, hsidx2, hc2]
    rfl

/-- Witness for C3: the round trip on the concrete four-bar instrument
(closes 100, 102, 105, 103) freshly loaded at bar 0. -/
theorem full_round_trip_witness :
    (buy (loadStock initialState stockW 0 0) 50 1).cash = 5000 ∧
    (buy (loadStock initialState stockW 0 0) 50 1).position =
      some { shares := 50, averageCost := 100, entryBarIndex := 0 } ∧
    (sell (skip (buy (loadStock initialState stockW 0 0) 50 1) 2) 100 3).cash =
      10250 ∧
    (sell (skip (buy (loadStock initialState stockW 0 0) 50 1) 2) 100 3).position =
      none ∧
    (sell (skip (buy (loadStock initialState stockW 0 0) 50 1) 2) 100 3).holdingPeriods =
      [{ entryBarIndex := 0, exitBarIndex := some 2, entryPrice := 100
         exitPrice := some 105 }] :=
  full_round_trip (loadStock initialState stockW 0 0) stockW 0
    (mkBar "a" 100 1) (mkBar "c" 105 1) 1 2 3
    rfl rfl rfl rfl rfl rfl rfl rfl rfl

/-! ### C1 -/

/-- Any outcome produced by calculateOutcome carries the prediction
inferred from the position of the state it was computed in. -/
theorem calculateOutcome_inferredPrediction (s : GameState) (o : TurnOutcome)
    (h : calculateOutcome s = some o) :
    o.inferredPrediction = inferPrediction s.position := by
  unfold calculateOutcome at h
  rcases hc : s.currentStock with _ | stock <;> rw [hc] at h
  · simp at h
  · dsimp only at h
    rcases hn : stock.bars.get? (s.currentBarIndex + 1) with _ | nb <;>
      rw [hn] at h
    · simp at h
    · dsimp only at h
      rcases hb : stock.bars.get? s.currentBarIndex with _ | cb <;>
        rw [hb] at h
      · simp at h
      · dsimp only at h
        injection h with h
        rw [← h]

/-- The shared tail of skip, buy and sell: if the turn's outcome got
appended to the outcome history, its inferred prediction is the one
computed from the position of the mutated state s1. -/
theorem advanceBar_position (s : GameState) :
    (advanceBar s).position = s.position := rfl

theorem recordIf_append_pred (s1 : GameState) (a : ActionType)
    (o : TurnOutcome)
    (h : (recordIf (advanceBar s1) (calculateOutcome s1) a).turnOutcomes =
      s1.turnOutcomes ++ [o]) :
    o.inferredPrediction = inferPrediction s1.position := by
  rw [recordIf_turnOutcomes] at h
  rcases ho : calculateOutcome s1 with _ | o' <;> rw [ho] at h
  · dsimp only at h
    exact absurd (show s1.turnOutcomes = s1.turnOutcomes ++ [o] from h)
      (by simp)
  · dsimp only at h
    have h2 : s1.turnOutcomes ++ [{ o' with action := a }] =
        s1.turnOutcomes ++ [o] := h
    have h3 : ({ o' with action := a } : TurnOutcome) = o := by
      have := List.append_cancel_left h2
      exact (List.singleton_inj.mp this)
    rw [← h3]
    exact calculateOutcome_inferredPrediction s1 o' ho

/-- C1 as amended: for every turn completed by Skip, Buy or Sell in which
an outcome is recorded, the recorded inferred prediction is computed from
the position held immediately AFTER the action's position update (which
for Skip coincides with the pre-action position, but for Buy and Sell is
the post-trade position): it is up exactly when that updated position has
shares > 0. In particular a flat player who Buys is scored as predicting
up for that turn, not down. -/
theorem prediction_from_post_action_position (s : GameState) (p : ℚ)
    (now : ℤ) :
    (∀ o, (skip s now).turnOutcomes = s.turnOutcomes ++ [o] →
      o.inferredPrediction = inferPrediction ((skip s now).position)) ∧
    (∀ o, (buy s p now).turnOutcomes = s.turnOutcomes ++ [o] →
      o.inferredPrediction = inferPrediction ((buy s p now).position)) ∧
    (∀ o, (sell s p now).turnOutcomes = s.turnOutcomes ++ [o] →
      o.inferredPrediction = inferPrediction ((sell s p now).position)) := by
  refine ⟨?_, ?_, ?_⟩
  · unfold skip
    rcases hc : s.currentStock with _ | stock
    · exact fun o h => absurd h (by simp)
    · dsimp only
      rw [recordIf_position, advanceBar_position]
      exact fun o h => recordIf_append_pred _ _ o h
  · unfold buy
    rcases hc : s.currentStock with _ | stock
    · exact fun o h => absurd h (by simp)
    · dsimp only
      by_cases hp : p ≤ 0 ∨ p > 100
      · rw [if_pos hp]
        exact fun o h => absurd h (by simp)
      · rw [if_neg hp]
        by_cases hcash : s.cash ≤ 0
        · rw [if_pos hcash]
          exact fun o h => absurd h (by simp)
        · rw [if_neg hcash]
          rcases hb : stock.bars.get? s.currentBarIndex with _ | cb
          · exact fun o h => absurd h (by simp)
          · dsimp only
            rw [recordIf_position, advanceBar_position]
            exact fun o h => recordIf_append_pred _ _ o h
  · unfold sell
    rcases hc : s.currentStock with _ | stock
    · exact fun o h => absurd h (by simp)
    · dsimp only
      by_cases hp : p ≤ 0 ∨ p > 100
      · rw [if_pos hp]
        exact fun o h => absurd h (by simp)
      · rw [if_neg hp]
        rcases hpos : s.position with _ | q
        · exact fun o h => absurd h (by simp)
        · dsimp only
          by_cases hsh : q.shares ≤ 0
          · rw [if_pos hsh]
            exact fun o h => absurd h (by simp)
          · rw [if_neg hsh]
            rcases hb : stock.bars.get? s.currentBarIndex with _ | cb
            · exact fun o h => absurd h (by simp)
            · dsimp only
              rw [recordIf_position, advanceBar_position]
              exact fun o h => recordIf_append_pred _ _ o h


/-- Counterexample to C1 as stated: on the freshly loaded four-bar
instrument the player is flat (position null, so the claim would score the
turn as predicting down), yet the outcome recorded for Buy(50) carries
inferred prediction up, because the source computes the prediction after
the buy has already updated the position. -/
theorem flat_buy_scored_up :
    (loadStock initialState stockW 0 0).position = none ∧
    ((buy (loadStock initialState stockW 0 0) 50 0).turnOutcomes).map
      TurnOutcome.inferredPrediction = [Direction.up] := by
  refine ⟨rfl, ?_⟩
  norm_num [buy, loadStock, initialState, initialSessionStats, INITIAL_CASH,
    stockW, mkBar, calculateOutcome, advanceBar, recordIf, recordTurnOutcome,
    decisionTimeOf, getDirection, inferPrediction, EPSILON, List.get?]

/-- Witness for the amended C1: the buy on the freshly loaded four-bar
instrument records exactly the outcome buyOutcomeW, and its inferred
prediction agrees with the prediction inferred from the post-buy
position. -/
theorem prediction_from_post_action_position_witness :
    (buy (loadStock initialState stockW 0 0) 50 0).turnOutcomes =
      (loadStock initialState stockW 0 0).turnOutcomes ++ [buyOutcomeW] ∧
    buyOutcomeW.inferredPrediction =
      inferPrediction ((buy (loadStock initialState stockW 0 0) 50 0).position) := by
  have h : (buy (loadStock initialState stockW 0 0) 50 0).turnOutcomes =
      (loadStock initialState stockW 0 0).turnOutcomes ++ [buyOutcomeW] := by
    norm_num [buy, loadStock, initialState, initialSessionStats, INITIAL_CASH,
      stockW, mkBar, calculateOutcome, advanceBar, recordIf, recordTurnOutcome,
      decisionTimeOf, getDirection, inferPrediction, EPSILON, List.get?,
      buyOutcomeW]
    exact fun h => nomatch h
  exact ⟨h,
    (prediction_from_post_action_position (loadStock initialState stockW 0 0)
      50 0).2.1 buyOutcomeW h⟩

/-! ### C9 -/

/-- A run of consecutive wins recorded by recordTurnOutcome: the streak
ends at max(start, 0) plus the number of wins, and never exceeds the best
streak. -/
theorem winStreak_foldl (os : List TurnOutcome) : ∀ s : GameState,
    (∀ x ∈ os, x.isWin = some true) → os ≠ [] →
    (os.foldl recordTurnOutcome s).sessionStats.currentStreak =
      max s.sessionStats.currentStreak 0 + os.length ∧
    (os.foldl recordTurnOutcome s).sessionStats.currentStreak ≤
      (os.foldl recordTurnOutcome s).sessionStats.bestStreak := by
  induction os with
  | nil => exact fun s _ h => absurd rfl h
  | cons x rest ih =>
    intro s hall _
    have hx : x.isWin = some true := hall x (by simp)
    have hcs : (recordTurnOutcome s x).sessionStats.currentStreak =
        (if s.sessionStats.currentStreak > 0 then
          s.sessionStats.currentStreak + 1 else 1) := by
      unfold recordTurnOutcome
      rw [hx]
    have hbest : (recordTurnOutcome s x).sessionStats.bestStreak =
        max s.sessionStats.bestStreak
          (if s.sessionStats.currentStreak > 0 then
            s.sessionStats.currentStreak + 1 else 1) := by
      unfold recordTurnOutcome
      rw [hx]
    rcases Decidable.em (rest = []) with hre | hre
    · subst hre
      simp only [List.foldl, List.length_cons, List.length_nil]
      constructor
      · rw [hcs]
        rcases le_or_lt s.sessionStats.currentStreak 0 with h | h
        · rw [if_neg (not_lt.mpr h), max_eq_right h]
          norm_num
        · rw [if_pos h, max_eq_left h.le]
          push_cast
          omega
      · rw [hbest, hcs]
        exact le_max_right _ _
    · have hres := ih (recordTurnOutcome s x)
        (fun y hy => hall y (by simp [hy])) hre
      simp only [List.foldl, List.length_cons]
      refine ⟨?_, hres.2⟩
      rw [hres.1, hcs]
      rcases le_or_lt s.sessionStats.currentStreak 0 with h | h
      · rw [if_neg (not_lt.mpr h), max_eq_right h,
          max_eq_left (by norm_num : (0 : ℤ) ≤ 1)]
        push_cast
        omega
      · rw [if_pos h, max_eq_left (by omega : (0 : ℤ) ≤
          s.sessionStats.currentStreak + 1), max_eq_left h.le]
        push_cast
        omega

/-- C9: the streak bookkeeping of recordTurnOutcome. On a win the streak
becomes streak+1 if positive else 1 and the best streak becomes the max of
the old best and the new streak; on a loss the streak becomes streak-1 if
negative else -1 and the worst streak the min of the old worst and the new
streak; on a flat the three streak fields are untouched and flats
increments. Hence a nonempty run of N wins starting from a non-positive
streak ends with streak exactly N, and the first win recorded right after
a loss sets the streak to 1, not 0. -/
theorem streak_algorithm (s : GameState) (o oL oW : TurnOutcome)
    (os : List TurnOutcome) :
    (o.isWin = some true →
      (recordTurnOutcome s o).sessionStats.currentStreak =
        (if s.sessionStats.currentStreak > 0 then
          s.sessionStats.currentStreak + 1 else 1) ∧
      (recordTurnOutcome s o).sessionStats.bestStreak =
        max s.sessionStats.bestStreak
          (if s.sessionStats.currentStreak > 0 then
            s.sessionStats.currentStreak + 1 else 1) ∧
      (recordTurnOutcome s o).sessionStats.wins = s.sessionStats.wins + 1 ∧
      (recordTurnOutcome s o).sessionStats.worstStreak =
        s.sessionStats.worstStreak) ∧
    (o.isWin = some false →
      (recordTurnOutcome s o).sessionStats.currentStreak =
        (if s.sessionStats.currentStreak < 0 then
          s.sessionStats.currentStreak - 1 else -1) ∧
      (recordTurnOutcome s o).sessionStats.worstStreak =
        min s.sessionStats.worstStreak
          (if s.sessionStats.currentStreak < 0 then
            s.sessionStats.currentStreak - 1 else -1) ∧
      (recordTurnOutcome s o).sessionStats.losses = s.sessionStats.losses + 1 ∧
      (recordTurnOutcome s o).sessionStats.bestStreak =
        s.sessionStats.bestStreak) ∧
    (o.isWin = none →
      (recordTurnOutcome s o).sessionStats.currentStreak =
        s.sessionStats.currentStreak ∧
      (recordTurnOutcome s o).sessionStats.bestStreak =
        s.sessionStats.bestStreak ∧
      (recordTurnOutcome s o).sessionStats.worstStreak =
        s.sessionStats.worstStreak ∧
      (recordTurnOutcome s o).sessionStats.flats = s.sessionStats.flats + 1) ∧
    ((∀ x ∈ os, x.isWin = some true) → os ≠ [] →
      s.sessionStats.currentStreak ≤ 0 →
      (os.foldl recordTurnOutcome s).sessionStats.currentStreak = os.length) ∧
    (oL.isWin = some false → oW.isWin = some true →
      (recordTurnOutcome (recordTurnOutcome s oL) oW).sessionStats.currentStreak
        = 1) := by
  refine ⟨?_, ?_, ?_, ?_, ?_⟩
  · intro h
    unfold recordTurnOutcome
    rw [h]
    exact ⟨rfl, rfl, rfl, rfl⟩
  · intro h
    unfold recordTurnOutcome
    rw [h]
    exact ⟨rfl, rfl, rfl, rfl⟩
  · intro h
    unfold recordTurnOutcome
    rw [h]
    exact ⟨rfl, rfl, rfl, rfl⟩
  · intro hall hne hcs
    rw [(winStreak_foldl os s hall hne).1, max_eq_right hcs]
    norm_num
  · intro hL hW
    have hcs1 : (recordTurnOutcome s oL).sessionStats.currentStreak =
        (if s.sessionStats.currentStreak < 0 then
          s.sessionStats.currentStreak - 1 else -1) := by
      unfold recordTurnOutcome
      rw [hL]
    have hneg : ¬(recordTurnOutcome s oL).sessionStats.currentStreak > 0 := by
      rw [hcs1]
      rcases lt_or_le s.sessionStats.currentStreak 0 with h | h
      · rw [if_pos h]; omega
      · rw [if_neg (not_lt.mpr h)]; omega
    have hcs2 : (recordTurnOutcome (recordTurnOutcome s oL) oW).sessionStats.currentStreak =
        (if (recordTurnOutcome s oL).sessionStats.currentStreak > 0 then
          (recordTurnOutcome s oL).sessionStats.currentStreak + 1 else 1) := by
      unfold recordTurnOutcome
      rw [hW]
    rw [hcs2, if_neg hneg]


/-- Witness for C9: from the initial stats (streak 0), one win gives
streak 1, three wins in a row give streak 3, and a win right after a loss
gives streak 1. -/
theorem streak_algorithm_witness :
    (recordTurnOutcome initialState (outcomeWith (some true))).sessionStats.currentStreak = 1 ∧
    ([outcomeWith (some true), outcomeWith (some true),
      outcomeWith (some true)].foldl recordTurnOutcome initialState).sessionStats.currentStreak = 3 ∧
    (recordTurnOutcome (recordTurnOutcome initialState
      (outcomeWith (some false))) (outcomeWith (some true))).sessionStats.currentStreak = 1 := by
  refine ⟨?_, ?_, ?_⟩
  · have h := (streak_algorithm initialState (outcomeWith (some true))
      (outcomeWith (some true)) (outcomeWith (some true)) []).1 rfl
    rw [h.1]
    decide
  · have h := (streak_algorithm initialState (outcomeWith (some true))
      (outcomeWith (some true)) (outcomeWith (some true))
      [outcomeWith (some true), outcomeWith (some true),
        outcomeWith (some true)]).2.2.2.1
      (by decide) (by decide) (by decide)
    rw [h]
    decide
  · exact (streak_algorithm initialState (outcomeWith (some true))
      (outcomeWith (some false)) (outcomeWith (some true)) []).2.2.2.2
      rfl rfl

/-! ### C10 -/


/-- The generalized loop version of the VWAP refinement. -/
theorem vwapLoop_eq (bars : List Bar) : ∀ ct cv : ℚ, 0 ≤ cv →
    (∀ b ∈ bars, 0 ≤ b.volume) →
    vwapLoop ct cv bars = (List.range bars.length).map fun i =>
      let pre := bars.take (i + 1)
      let cv2 := cv + (pre.map Bar.volume).sum
      let ct2 := ct + (pre.map fun b => typicalPrice b * b.volume).sum
      { time := timeAt bars i
        value := if cv2 = 0 then ((bars.get? i).map typicalPrice).getD 0
          else ct2 / cv2 } := by
  induction bars with
  | nil => intro ct cv _ _; rfl
  | cons b rest ih =>
    intro ct cv hcv hvol
    have hb : 0 ≤ b.volume := hvol b (by simp)
    have hv : 0 ≤ cv + b.volume := by positivity
    unfold vwapLoop
    dsimp only
    rw [ih (ct + typicalPrice b * b.volume) (cv + b.volume) hv
      (fun x hx => hvol x (by simp [hx]))]
    rw [List.length_cons, List.range_succ_eq_map, List.map_cons, List.map_map]
    congr 1
    · dsimp only
      simp only [List.take_succ_cons, List.take_zero, List.map_cons,
        List.map_nil, List.sum_cons, List.sum_nil, add_zero]
      rcases eq_or_lt_of_le hv with h0 | h0
      · rw [if_neg (by rw [← h0]; exact lt_irrefl 0), if_pos h0.symm]
        rfl
      · rw [if_pos h0, if_neg (ne_of_gt h0)]
        rfl
    · apply List.map_congr_left
      intro i _
      dsimp only [Function.comp]
      simp only [List.take_succ_cons, List.map_cons, List.sum_cons,
        ← add_assoc, timeAt, List.get?_cons_succ]

/-- C10: calculateVWAP is total on every bar list with non-negative
volumes and agrees pointwise with the spec description vwapFromSpec: for
each bar, zero cumulative volume yields that bar's typical price instead
of a division by zero, and positive cumulative volume yields the
cumulative typical-price-times-volume divided by the cumulative volume.
In particular it emits one value per input bar. -/
theorem calculateVWAP_spec (bars : List Bar)
    (h : ∀ b ∈ bars, 0 ≤ b.volume) :
    calculateVWAP bars = vwapFromSpec bars ∧
    (calculateVWAP bars).length = bars.length := by
  have heq : calculateVWAP bars = vwapFromSpec bars := by
    unfold calculateVWAP vwapFromSpec
    rw [vwapLoop_eq bars 0 0 le_rfl h]
    apply List.map_congr_left
    intro i _
    dsimp only
    rw [zero_add, zero_add]
  exact ⟨heq, by rw [heq]; unfold vwapFromSpec; rw [List.length_map,
    List.length_range]⟩


/-- Witness for C10: on a list whose first bar has volume 0, calculateVWAP
agrees with the spec description (first value is the typical price itself)
and has one value per bar. -/
theorem calculateVWAP_spec_witness :
    calculateVWAP vBars = vwapFromSpec vBars ∧
    (calculateVWAP vBars).length = vBars.length :=
  calculateVWAP_spec vBars (by
    intro b hb
    simp only [vBars, List.mem_cons, List.not_mem_nil, or_false] at hb
    rcases hb with h | h <;> (subst h; norm_num [mkBar]))

/-! ### C6, C7 helper lemmas -/

theorem range'_map_succ {α : Type} (f : ℕ → α) : ∀ n s : ℕ,
    (List.range' (s + 1) n).map f =
      (List.range' s n).map (fun i => f (i + 1)) := by
  intro n
  induction n with
  | zero => intro s; rfl
  | succ n ihn =>
    intro s
    rw [List.range'_succ, List.range'_succ, List.map_cons, List.map_cons,
      ihn (s + 1)]

/-- The indices period-1, period, ..., length-1 pick out exactly the bars
from index period-1 on; stated for the time field. -/
theorem map_timeAt_range' : ∀ (bars : List Bar) (k : ℕ),
    (List.range' k (bars.length - k)).map (timeAt bars) =
      (bars.drop k).map Bar.time := by
  intro bars
  induction bars with
  | nil => intro k; simp
  | cons b rest ih =>
    intro k
    cases k with
    | zero =>
      rw [Nat.sub_zero, List.length_cons, List.range'_succ, List.map_cons,
        List.drop_zero, List.map_cons, range'_map_succ]
      exact congrArg (List.cons b.time) (ih 0)
    | succ k' =>
      rw [List.length_cons, Nat.succ_sub_succ, List.drop_succ_cons,
        range'_map_succ]
      exact ih k'

/-- The EMA tail loop emits one point per remaining bar, at that bar's
time. -/
theorem emaLoop_times (k : ℚ) : ∀ (e : ℚ) (bs : List Bar),
    (emaLoop k e bs).map LineData.time = bs.map Bar.time := by
  intro e bs
  induction bs generalizing e with
  | nil => rfl
  | cons b rest ih => exact congrArg (List.cons b.time) (ih _)

/-- The RSI smoothing loop emits one point per remaining (gain, loss)
pair, dated at the paired bar's time, as long as pairs do not outnumber
bars. -/
theorem rsiLoop_times (period : ℕ) : ∀ (gls : List (ℚ × ℚ)) (bs : List Bar)
    (ag al : ℚ), gls.length ≤ bs.length →
    (rsiLoop period ag al gls bs).map LineData.time =
      (bs.take gls.length).map Bar.time := by
  intro gls
  induction gls with
  | nil => intro bs ag al _; rfl
  | cons p rest ih =>
    intro bs ag al hlen
    cases bs with
    | nil => simp at hlen
    | cons b bs2 =>
      rcases p with ⟨g, l⟩
      simp only [List.length_cons, List.take_succ_cons, List.map_cons]
      exact congrArg (List.cons b.time)
        (ih bs2 _ _ (by simpa using hlen))

/-- changes produces one (gain, loss) pair per consecutive bar pair. -/
theorem changes_length : ∀ bars : List Bar,
    (changes bars).length = bars.length - 1 := by
  intro bars
  induction bars with
  | nil => rfl
  | cons b rest ih =>
    cases rest with
    | nil => rfl
    | cons c rest2 =>
      simp only [changes, List.length_cons] at ih ⊢
      omega

/-! ### C6 -/

/-- C6 as amended: SMA and Bollinger align their first value at bar index
period-1 (their output carries exactly the times of the bars from index
period-1 on, hence is empty when fewer than period bars exist); EMA also
aligns its first value at bar index period-1, but for fewer than period
bars it does not return an empty series: it fails (out-of-range access).
RSI emits its first value at bar index period, not period-1, and fails on
fewer than period+1 bars. -/
theorem indicator_alignment (bars : List Bar) (period : ℕ)
    ( sqrtFn : ℚ → ℚ) (m : ℚ) (hp : 1 ≤ period) :
    (calculateSMA bars period).map LineData.time =
      (bars.drop (period - 1)).map Bar.time ∧
    (bars.length < period → calculateSMA bars period = []) ∧
    ((calculateBollingerBands sqrtFn bars period m).middle).map LineData.time
      = (bars.drop (period - 1)).map Bar.time ∧
    ((calculateBollingerBands sqrtFn bars period m).upper).map LineData.time
      = (bars.drop (period - 1)).map Bar.time ∧
    ((calculateBollingerBands sqrtFn bars period m).lower).map LineData.time
      = (bars.drop (period - 1)).map Bar.time ∧
    (calculateEMA bars period = none ↔ bars.length < period) ∧
    (∀ out, calculateEMA bars period = some out →
      out.map LineData.time = (bars.drop (period - 1)).map Bar.time) ∧
    (calculateRSI bars period = none ↔ bars.length < period + 1) ∧
    (∀ out, calculateRSI bars period = some out →
      out.map LineData.time = (bars.drop period).map Bar.time) := by
  have hsma : (calculateSMA bars period).map LineData.time =
      (bars.drop (period - 1)).map Bar.time := by
    unfold calculateSMA
    rw [List.map_map]
    exact map_timeAt_range' bars (period - 1)
  refine ⟨hsma, ?_, ?_, ?_, ?_, ?_, ?_, ?_, ?_⟩
  · intro hlen
    unfold calculateSMA
    have h0 : bars.length - (period - 1) = 0 := by omega
    rw [h0]
    rfl
  · unfold calculateBollingerBands
    rw [List.map_map]
    exact map_timeAt_range' bars (period - 1)
  · unfold calculateBollingerBands
    rw [List.map_map]
    exact map_timeAt_range' bars (period - 1)
  · unfold calculateBollingerBands
    rw [List.map_map]
    exact map_timeAt_range' bars (period - 1)
  · unfold calculateEMA
    by_cases h : bars.length < period
    · rw [if_pos h]; simpa using h
    · rw [if_neg h]; simpa using h
  · intro out hout
    unfold calculateEMA at hout
    by_cases h : bars.length < period
    · rw [if_pos h] at hout; exact absurd hout (by simp)
    · rw [if_neg h] at hout
      dsimp only at hout
      injection hout with hout
      rw [← hout, List.map_cons, emaLoop_times]
      have hlt : period - 1 < bars.length := by omega
      rw [List.drop_eq_getElem_cons hlt, List.map_cons]
      have h1 : period - 1 + 1 = period := by omega
      rw [h1]
      congr 1
      unfold timeAt
      rw [List.get?_eq_getElem?, List.getElem?_eq_getElem hlt]
      rfl
  · unfold calculateRSI
    by_cases h : bars.length < period + 1
    · rw [if_pos h]; simpa using h
    · rw [if_neg h]; simpa using h
  · intro out hout
    unfold calculateRSI at hout
    by_cases h : bars.length < period + 1
    · rw [if_pos h] at hout; exact absurd hout (by simp)
    · rw [if_neg h] at hout
      dsimp only at hout
      injection hout with hout
      rw [← hout, List.map_cons]
      have hdlen : ((changes bars).drop period).length ≤
          (bars.drop (period + 1)).length := by
        rw [List.length_drop, List.length_drop, changes_length]
        omega
      rw [rsiLoop_times period _ _ _ _ hdlen]
      have htake : ((bars.drop (period + 1)).take
          ((changes bars).drop period).length) = bars.drop (period + 1) := by
        apply List.take_of_length_le
        rw [List.length_drop, List.length_drop, changes_length]
        omega
      rw [htake]
      have hlt : period < bars.length := by omega
      rw [List.drop_eq_getElem_cons hlt, List.map_cons]
      congr 1
      unfold timeAt
      rw [List.get?_eq_getElem?, List.getElem?_eq_getElem hlt]
      rfl


/-- Counterexample to C6 as stated: RSI with period 2 on three bars emits
its first (and only) value at the time of bar index 2 (= period), not bar
index period-1 = 1, whose time is different. -/
theorem rsi_first_value_at_period :
    (calculateRSI rsiBars6 2).map (List.map LineData.time) = some ["z3"] ∧
    (rsiBars6.get? 1).map Bar.time = some "z2" ∧
    ("z3" : String) ≠ "z2" := by
  refine ⟨?_, rfl, by decide⟩
  norm_num [calculateRSI, rsiBars6, mkBar, changes, rsiValue, rsiLoop,
    timeAt, List.get?]

/-- Witness for the amended C6: on the three rising bars with period 2,
the SMA series carries the times of bars 1 and 2, and the RSI series the
time of bar 2 only. -/
theorem indicator_alignment_witness :
    (calculateSMA rsiBars6 2).map LineData.time =
      (rsiBars6.drop 1).map Bar.time ∧
    (∀ out, calculateRSI rsiBars6 2 = some out →
      out.map LineData.time = (rsiBars6.drop 2).map Bar.time) :=
  ⟨(indicator_alignment rsiBars6 2 id 2 (by norm_num)).1,
   (indicator_alignment rsiBars6 2 id 2 (by norm_num)).2.2.2.2.2.2.2.2⟩

/-! ### C7 -/


/-- Counterexample to C7: on three strictly rising closes the seed average
loss is zero, and the RSI value emitted is 10000/101 (about 99.0099), not
100: the source caps rs at 100 instead of emitting RSI = 100. -/
theorem rsi_zero_loss_not_100 :
    calculateRSI rsiBars7 2 = some [{ time := "r3", value := 10000 / 101 }] ∧
    (10000 / 101 : ℚ) ≠ 100 := by
  constructor
  · norm_num [calculateRSI, rsiBars7, mkBar, changes, rsiValue, rsiLoop,
      timeAt, List.get?]
  · norm_num

/-- C7 as amended: whenever the running average loss is zero the source
sets rs = 100 (instead of emitting 100), so the emitted RSI value is
100 - 100/(1+100) = 10000/101, for every average gain; in particular when
the first period gains/losses contain no loss, the first emitted RSI value
is 10000/101. -/
theorem rsi_zero_loss_value (g : ℚ) (bars : List Bar) (period : ℕ)
    (out : List LineData) (e : LineData) :
    rsiValue g 0 = 10000 / 101 ∧
    ((∀ pr ∈ (changes bars).take period, pr.2 = 0) →
      calculateRSI bars period = some out → out.head? = some e →
      e.value = 10000 / 101) := by
  have h1 : ∀ g' : ℚ, rsiValue g' 0 = 10000 / 101 := by
    intro g'
    unfold rsiValue
    rw [if_pos rfl]
    norm_num
  refine ⟨h1 g, ?_⟩
  intro hz hout hhead
  unfold calculateRSI at hout
  by_cases hlen : bars.length < period + 1
  · rw [if_pos hlen] at hout
    exact absurd hout (by simp)
  · rw [if_neg hlen] at hout
    dsimp only at hout
    have hsum : (((changes bars).take period).map Prod.snd).sum = 0 :=
      List.sum_eq_zero (by
        intro x hx
        rcases List.mem_map.mp hx with ⟨pr, hpr, hx2⟩
        rw [← hx2]
        exact hz pr hpr)
    injection hout with hout
    rw [← hout] at hhead
    rw [List.head?_cons] at hhead
    injection hhead with hhead
    rw [← hhead]
    dsimp only
    rw [hsum, zero_div]
    exact h1 _

/-- Witness for the amended C7: the three rising bars have no loss among
the first two changes, and the first RSI value emitted is 10000/101. -/
theorem rsi_zero_loss_value_witness :
    ({ time := "r3", value := 10000 / 101 } : LineData).value = 10000 / 101 :=
  (rsi_zero_loss_value 1 rsiBars7 2 [{ time := "r3", value := 10000 / 101 }]
    { time := "r3", value := 10000 / 101 }).2
    (by
      intro pr hpr
      have hch : changes rsiBars7 = [(1, 0), (1, 0)] := by
        norm_num [changes, rsiBars7, mkBar]
      rw [hch] at hpr
      simp at hpr
      rw [hpr])
    (by norm_num [calculateRSI, rsiBars7, mkBar, changes, rsiValue, rsiLoop,
      timeAt, List.get?])
    rfl

/-! ### C5 -/


/-- closeLastHp only rewrites the final element, and only when it is
open. -/
theorem closeLastHp_concat (l' : List HoldingPeriod) (a : HoldingPeriod)
    (e : ℕ) (pr : ℚ) :
    closeLastHp (l' ++ [a]) e pr =
      l' ++ [if a.exitBarIndex = none then
        { a with exitBarIndex := some e, exitPrice := some pr } else a] := by
  unfold closeLastHp
  rw [List.enum_append, List.map_append]
  congr 1
  · have hid : ∀ p ∈ l'.enum,
        (if p.1 = (l' ++ [a]).length - 1 ∧ p.2.exitBarIndex = none then
          { p.2 with exitBarIndex := some e, exitPrice := some pr }
        else p.2) = Prod.snd p := by
      intro p hp
      have hlt : p.1 < l'.length := List.fst_lt_of_mem_enum hp
      rw [if_neg]
      rintro ⟨h1, _⟩
      rw [List.length_append, List.length_cons, List.length_nil] at h1
      omega
    rw [List.map_congr_left hid, List.enum_map_snd]
  · rw [show List.enumFrom l'.length [a] = [(l'.length, a)] from rfl,
      List.map_cons, List.map_nil]
    by_cases ha : a.exitBarIndex = none
    · rw [if_pos ⟨by simp, ha⟩, if_pos ha]
    · rw [if_neg (fun hcontra => ha hcontra.2), if_neg ha]

/-- Closing the unique open (last) holding period yields a list with no
open holding period at all. -/
theorem Inv_close (hps : List HoldingPeriod) (e : ℕ) (pr : ℚ)
    (h1 : ∀ hp ∈ hps.dropLast, hp.exitBarIndex ≠ none)
    (h2 : ∃ hp, hps.getLast? = some hp ∧ hp.exitBarIndex = none) :
    (∀ hp ∈ (closeLastHp hps e pr).dropLast, hp.exitBarIndex ≠ none) ∧
    ¬∃ hp, (closeLastHp hps e pr).getLast? = some hp ∧
      hp.exitBarIndex = none := by
  rcases h2 with ⟨a0, hlast, hopen⟩
  rcases List.eq_nil_or_concat hps with hnil | ⟨l', a, hcat⟩
  · rw [hnil] at hlast
    simp at hlast
  · rw [List.concat_eq_append] at hcat
    subst hcat
    rw [List.getLast?_concat] at hlast
    injection hlast with hlast
    rw [← hlast] at hopen
    rw [closeLastHp_concat, if_pos hopen]
    constructor
    · rw [List.dropLast_concat]
      intro hp hm
      exact h1 hp (by rw [List.dropLast_concat]; exact hm)
    · rintro ⟨hp, hlast2, hopen2⟩
      rw [List.getLast?_concat] at hlast2
      injection hlast2 with hlast2
      rw [← hlast2] at hopen2
      simp at hopen2

theorem Inv_initial : Inv initialState := by
  refine ⟨?_, ?_, ?_, ?_⟩ <;> simp [Inv, initialState]

theorem Inv_loadStock (s : GameState) (stock : StockData) (i : ℕ) (now : ℤ)
    (hpos : ∀ b ∈ stock.bars, 0 < b.close) :
    Inv (loadStock s stock i now) := by
  refine ⟨?_, ?_, ?_, ?_⟩
  · intro hp hm
    simp [loadStock] at hm
  · constructor
    · intro h
      exact absurd rfl h
    · rintro ⟨hp, hlast, _⟩
      simp [loadStock] at hlast
  · intro q hq
    simp [loadStock] at hq
  · intro st hst b hb
    have : stock = st := by
      have h2 : some stock = some st := hst
      exact Option.some.inj h2
    subst this
    exact hpos b hb

theorem Inv_skip (s : GameState) (now : ℤ) (hInv : Inv s) :
    Inv (skip s now) := by
  obtain ⟨h1, h2, h3, h4⟩ := hInv
  obtain ⟨hcash, hpos, hhp, htr, hstock, _⟩ := skip_fields s now
  exact ⟨by rw [hhp]; exact h1, by rw [hpos, hhp]; exact h2,
    by rw [hpos]; exact h3, by rw [hstock]; exact h4⟩

theorem Inv_buy (s : GameState) (p : ℚ) (now : ℤ) (hInv : Inv s) :
    Inv (buy s p now) := by
  rcases hc : s.currentStock with _ | stock
  · rw [show buy s p now = s from by unfold buy; rw [hc]]
    exact hInv
  by_cases hp : p ≤ 0 ∨ p > 100
  · rw [show buy s p now = s from by
      unfold buy; rw [hc]; dsimp only; rw [if_pos hp]]
    exact hInv
  by_cases hcash : s.cash ≤ 0
  · rw [show buy s p now = s from by
      unfold buy; rw [hc]; dsimp only; rw [if_neg hp, if_pos hcash]]
    exact hInv
  rcases hbar : stock.bars.get? s.currentBarIndex with _ | cb
  · rw [show buy s p now = s from by
      unfold buy; rw [hc]; dsimp only; rw [if_neg hp, if_neg hcash, hbar]]
    exact hInv
  obtain ⟨hbcash, hbpos, hbhp, hbtr, hbidx, hbstock⟩ :=
    buy_success s stock cb p now hc hp hcash hbar
  have hclose : 0 < cb.close :=
    hInv.2.2.2 stock hc cb (List.get?_mem hbar)
  rw [not_or, not_le] at hp
  have hcash' : 0 < s.cash := not_le.mp hcash
  have hbought : 0 < s.cash * (p / 100) / cb.close :=
    div_pos (mul_pos hcash' (div_pos hp.1 (by norm_num))) hclose
  have hstkinv : ∀ st, (buy s p now).currentStock = some st →
      ∀ b ∈ st.bars, 0 < b.close := by
    intro st hst b hb
    rw [hbstock] at hst
    have : stock = st := Option.some.inj hst
    subst this
    exact hInv.2.2.2 stock hc b hb
  rcases hpos : s.position with _ | q
  · -- flat before the buy: all holding periods are closed, a new one opens
    have hallclosed : ∀ hp' ∈ s.holdingPeriods, hp'.exitBarIndex ≠ none := by
      intro hp' hmem
      rcases List.eq_nil_or_concat s.holdingPeriods with hnil | ⟨l', a, hcat⟩
      · rw [hnil] at hmem
        simp at hmem
      · rw [List.concat_eq_append] at hcat
        rw [hcat] at hmem
        rcases List.mem_append.mp hmem with hm | hm
        · exact hInv.1 hp' (by rw [hcat, List.dropLast_concat]; exact hm)
        · have ha : hp' = a := by simpa using hm
          intro hopen
          have hne : s.position ≠ none := hInv.2.1.mpr
            ⟨a, by rw [hcat, List.getLast?_concat],
              by rw [← ha]; exact hopen⟩
          exact hne hpos
    have hhp2 : (buy s p now).holdingPeriods = s.holdingPeriods ++
        [{ entryBarIndex := s.currentBarIndex, exitBarIndex := none
           entryPrice := cb.close, exitPrice := none }] := by
      rw [hbhp, if_pos (by rw [hpos])]
    rw [hpos] at hbpos
    simp only [Option.map_none', Option.getD_none] at hbpos
    refine ⟨?_, ?_, ?_, hstkinv⟩
    · intro hp' hmem
      rw [hhp2, List.dropLast_concat] at hmem
      exact hallclosed hp' hmem
    · constructor
      · intro _
        exact ⟨_, by rw [hhp2, List.getLast?_concat], rfl⟩
      · intro _
        rw [hbpos]
        exact Option.some_ne_none _
    · intro q' hq'
      rw [hbpos] at hq'
      have hq2 := Option.some.inj hq'
      rw [← hq2]
      show 0 < 0 + s.cash * (p / 100) / cb.close
      rw [zero_add]
      exact hbought
  · -- already holding: the open last period stays open, none is added
    have hq : 0 < q.shares := hInv.2.2.1 q hpos
    have hhp2 : (buy s p now).holdingPeriods = s.holdingPeriods := by
      rw [hbhp, if_neg]
      rw [hpos]
      simp only [decide_eq_true_eq]
      exact ne_of_gt hq
    rw [hpos] at hbpos
    simp only [Option.map_some', Option.getD_some] at hbpos
    refine ⟨?_, ?_, ?_, hstkinv⟩
    · intro hp' hmem
      rw [hhp2] at hmem
      exact hInv.1 hp' hmem
    · rw [hhp2, hbpos]
      constructor
      · intro _
        exact hInv.2.1.mp (by rw [hpos]; exact Option.some_ne_none _)
      · intro _
        exact Option.some_ne_none _
    · intro q' hq'
      rw [hbpos] at hq'
      have hq2 := Option.some.inj hq'
      rw [← hq2]
      show 0 < q.shares + s.cash * (p / 100) / cb.close
      exact add_pos hq hbought

theorem Inv_sell (s : GameState) (p : ℚ) (now : ℤ) (hInv : Inv s) :
    Inv (sell s p now) := by
  rcases hc : s.currentStock with _ | stock
  · rw [show sell s p now = s from by unfold sell; rw [hc]]
    exact hInv
  by_cases hp : p ≤ 0 ∨ p > 100
  · rw [show sell s p now = s from by
      unfold sell; rw [hc]; dsimp only; rw [if_pos hp]]
    exact hInv
  rcases hpos : s.position with _ | q
  · rw [show sell s p now = s from by
      unfold sell; rw [hc]; dsimp only; rw [if_neg hp, hpos]]
    exact hInv
  by_cases hsh : q.shares ≤ 0
  · rw [show sell s p now = s from by
      unfold sell; rw [hc]; dsimp only; rw [if_neg hp, hpos]; dsimp only;
      rw [if_pos hsh]]
    exact hInv
  rcases hbar : stock.bars.get? s.currentBarIndex with _ | cb
  · rw [show sell s p now = s from by
      unfold sell; rw [hc]; dsimp only; rw [if_neg hp, hpos]; dsimp only;
      rw [if_neg hsh, hbar]]
    exact hInv
  obtain ⟨hscash, hspos, hshp, hstr, hsidx, hsstock⟩ :=
    sell_success s stock cb q p now hc hp hpos hsh hbar
  have hstkinv : ∀ st, (sell s p now).currentStock = some st →
      ∀ b ∈ st.bars, 0 < b.close := by
    intro st hst b hb
    rw [hsstock] at hst
    have : stock = st := Option.some.inj hst
    subst this
    exact hInv.2.2.2 stock hc b hb
  by_cases hrem : q.shares - q.shares * (p / 100) > 1 / 10000
  · -- partial liquidation: position stays, holding periods untouched
    have hpos2 : (sell s p now).position =
        some { q with shares := q.shares - q.shares * (p / 100) } := by
      rw [hspos, if_pos hrem]
    have hhp2 : (sell s p now).holdingPeriods = s.holdingPeriods := by
      rw [hshp, if_neg]
      rw [if_pos hrem]
      exact Option.some_ne_none _
    refine ⟨?_, ?_, ?_, hstkinv⟩
    · intro hp' hmem
      rw [hhp2] at hmem
      exact hInv.1 hp' hmem
    · rw [hpos2, hhp2]
      constructor
      · intro _
        exact hInv.2.1.mp (by rw [hpos]; exact Option.some_ne_none _)
      · intro _
        exact Option.some_ne_none _
    · intro q' hq'
      rw [hpos2] at hq'
      have hq2 := Option.some.inj hq'
      rw [← hq2]
      show 0 < q.shares - q.shares * (p / 100)
      calc (0 : ℚ) < 1 / 10000 := by norm_num
        _ < q.shares - q.shares * (p / 100) := hrem
  · -- full liquidation: position cleared, last holding period closed
    have hpos2 : (sell s p now).position = none := by
      rw [hspos, if_neg hrem]
    have hhp2 : (sell s p now).holdingPeriods =
        closeLastHp s.holdingPeriods s.currentBarIndex cb.close := by
      rw [hshp, if_pos (by rw [if_neg hrem])]
    have hopen := hInv.2.1.mp (by rw [hpos]; exact Option.some_ne_none _)
    have hclosed := Inv_close s.holdingPeriods s.currentBarIndex cb.close
      hInv.1 hopen
    refine ⟨?_, ?_, ?_, hstkinv⟩
    · intro hp' hmem
      rw [hhp2] at hmem
      exact hclosed.1 hp' hmem
    · rw [hpos2, hhp2]
      exact iff_of_false (fun h => h rfl) hclosed.2
    · intro q' hq'
      rw [hpos2] at hq'
      exact absurd hq' (Option.noConfusion)

theorem Inv_switchStock (s : GameState) (now : ℤ) (hInv : Inv s) :
    Inv (switchStock s now) := by
  obtain ⟨h1, h2, h3, h4⟩ := hInv
  rcases hc : s.currentStock with _ | stock
  · rw [show switchStock s now = s from by unfold switchStock; rw [hc]]
    exact ⟨h1, h2, h3, h4⟩
  have hstk0 : ∀ st, some stock = some st → ∀ b ∈ st.bars, 0 < b.close := by
    intro st hst b hb
    have : stock = st := Option.some.inj hst
    subst this
    exact h4 stock hc b hb
  rcases hpos : s.position with _ | pos
  · -- no position: only the reveal fields change (or nothing at all)
    have h2x := h2
    rw [hpos] at h2x
    unfold switchStock
    rw [hc, hpos]
    dsimp only
    rcases stock.bars.get? 0 with _ | fb
    · exact ⟨h1, h2, h3, h4⟩
    rcases stock.bars.get? (stock.bars.length - 1) with _ | lb
    · exact ⟨h1, h2, h3, h4⟩
    exact ⟨h1, h2x, fun q hq => absurd hq Option.noConfusion, hstk0⟩
  by_cases hsh : pos.shares > 0
  · -- open position: forced liquidation, identical to a full sell
    have hopen := h2.mp (by rw [hpos]; exact Option.some_ne_none _)
    unfold switchStock
    rw [hc, hpos]
    dsimp only
    rw [if_pos hsh]
    rcases stock.bars.get? s.currentBarIndex with _ | cb
    · exact ⟨h1, h2, h3, h4⟩
    rcases stock.bars.get? 0 with _ | fb
    · exact ⟨h1, h2, h3, h4⟩
    rcases stock.bars.get? (stock.bars.length - 1) with _ | lb
    · exact ⟨h1, h2, h3, h4⟩
    dsimp only
    have hclosed := Inv_close s.holdingPeriods s.currentBarIndex cb.close
      h1 hopen
    exact ⟨hclosed.1, iff_of_false (fun h => h rfl) hclosed.2,
      fun q' hq' => absurd hq' (Option.noConfusion), hstk0⟩
  · -- position record with non-positive shares: only the reveal fields
    have h2x := h2
    rw [hpos] at h2x
    unfold switchStock
    rw [hc, hpos]
    dsimp only
    rw [if_neg hsh]
    rcases stock.bars.get? 0 with _ | fb
    · exact ⟨h1, h2, h3, h4⟩
    rcases stock.bars.get? (stock.bars.length - 1) with _ | lb
    · exact ⟨h1, h2, h3, h4⟩
    have h3x := h3
    rw [hpos] at h3x
    exact ⟨h1, h2x, h3x, hstk0⟩


theorem Inv_reachable (s : GameState) (h : Reachable s) : Inv s := by
  induction h with
  | initStep => exact Inv_initial
  | loadStep s stock i now _ hpos _ => exact Inv_loadStock s stock i now hpos
  | skipStep s now _ ih => exact Inv_skip s now ih
  | buyStep s p now _ ih => exact Inv_buy s p now ih
  | sellStep s p now _ ih => exact Inv_sell s p now ih
  | switchStep s now _ ih => exact Inv_switchStock s now ih

/-- C5: in every state reachable by any sequence of the five store
operations (with validated snapshots: positive closes), at most one
holding period has a null exit, and a null-exit holding period exists
exactly when the position is non-null. -/
theorem holding_period_pairing (s : GameState) (h : Reachable s) :
    s.holdingPeriods.countP (fun hp => hp.exitBarIndex.isNone) ≤ 1 ∧
    ((∃ hp ∈ s.holdingPeriods, hp.exitBarIndex = none) ↔
      s.position ≠ none) := by
  obtain ⟨h1, h2, _, _⟩ := Inv_reachable s h
  rcases List.eq_nil_or_concat s.holdingPeriods with hnil | ⟨l', a, hcat⟩
  · rw [hnil]
    constructor
    · simp
    · rw [hnil] at h2
      simp only [List.getLast?_nil] at h2
      constructor
      · rintro ⟨hp, hm, _⟩
        simp at hm
      · intro hne
        rcases h2.mp hne with ⟨hp, hlast, _⟩
        exact absurd hlast (by simp)
  · rw [List.concat_eq_append] at hcat
    have h1' : ∀ hp ∈ l', hp.exitBarIndex ≠ none := by
      intro hp hm
      exact h1 hp (by rw [hcat, List.dropLast_concat]; exact hm)
    rw [hcat]
    constructor
    · rw [List.countP_append]
      have hz : l'.countP (fun hp => hp.exitBarIndex.isNone) = 0 := by
        rw [List.countP_eq_zero]
        intro hp hm
        simp only [Option.isNone_iff_eq_none, decide_eq_true_eq]
        exact h1' hp hm
      rw [hz, zero_add]
      cases ha : (fun hp => hp.exitBarIndex.isNone) a <;>
        simp [List.countP_cons, ha]
    · rw [hcat, List.getLast?_concat] at h2
      constructor
      · rintro ⟨hp, hm, hopen⟩
        rcases List.mem_append.mp hm with hm2 | hm2
        · exact absurd hopen (h1' hp hm2)
        · have : hp = a := by simpa using hm2
          subst this
          exact h2.mpr ⟨hp, rfl, hopen⟩
      · intro hne
        rcases h2.mp hne with ⟨hp, hlast, hopen⟩
        have : hp = a := Option.some.inj hlast.symm
        subst this
        exact ⟨hp, by simp, hopen⟩

/-- Witness for C5: a reachable state with one open holding period, built
by loading the four-bar instrument and buying; the pairing properties hold
there. -/
theorem holding_period_pairing_witness :
    ((buy (loadStock initialState stockW 0 0) 50 0).holdingPeriods.countP
      (fun hp => hp.exitBarIndex.isNone) ≤ 1) ∧
    ((∃ hp ∈ (buy (loadStock initialState stockW 0 0) 50 0).holdingPeriods,
      hp.exitBarIndex = none) ↔
      (buy (loadStock initialState stockW 0 0) 50 0).position ≠ none) :=
  holding_period_pairing _
    (Reachable.buyStep _ 50 0
      (Reachable.loadStep initialState stockW 0 0 Reachable.initStep (by
        intro b hb
        simp only [stockW, mkBar, List.mem_cons, List.not_mem_nil,
          or_false] at hb
        rcases hb with h | h | h | h <;> (subst h; norm_num))))

end ChartArcade
